import Mathlib

/-!
Verification of the `traid` trading system.

This file gives a shallow embedding of the parts of the code that the
checked properties are about, and proves or refutes each property.

Conventions of the embedding:
* Python `Decimal` values are embedded as `ℚ` (the arithmetic used by the
  code — addition, subtraction, multiplication, comparison — is exact on
  decimals, and `ℚ` contains all decimals exactly).
* Python strings manipulated character-by-character (the symbol
  translation functions) are embedded as `List Char`; strings used only
  as dictionary keys are embedded as `String`.
* Python dictionaries are embedded as insertion-ordered association
  lists (matching `dict` iteration order) or, for fixed-key maps, as
  functions.
* Raising `ValueError` (or an unpacking error) is embedded as the
  `Except.error` constructor; the ambient clock `time.time()` is passed
  in as an explicit argument.
-/

/-! ### Symbol translation (`kraken_client.py`: `_format_symbol`, `_reverse_format_symbol`) -/

/-- Embedding of Python `str.split('/')`: splits a character list at every
slash, keeping empty segments, so that `splitSlash [] = [[]]` just as
`"".split('/') == ['']`. -/
def splitSlash : List Char → List (List Char)
  | [] => [[]]
  | c :: cs =>
    if c = '/' then [] :: splitSlash cs
    else
      match splitSlash cs with
      | [] => [[c]]
      | p :: ps => (c :: p) :: ps

/-- The `ASSET_MAPPING` class constant of `KrakenClient`, in source order. -/
def ASSET_MAPPING : List (List Char × List Char) :=
  [("BTC".data, "XBT".data), ("USDT".data, "USDT".data),
   ("USD".data, "USD".data), ("EUR".data, "EUR".data)]

/-- Embedding of `self.ASSET_MAPPING.get(asset, asset)`. -/
def mapAsset (a : List Char) : List Char :=
  match ASSET_MAPPING.find? (fun p => p.1 == a) with
  | some p => p.2
  | none => a

/-- Embedding of the reverse-lookup loop in `_reverse_format_symbol`: the
first mapping entry whose Kraken code equals `a` wins; otherwise `a` is
returned unchanged. -/
def reverseAsset (a : List Char) : List Char :=
  match ASSET_MAPPING.find? (fun p => p.2 == a) with
  | some p => p.1
  | none => a

/-- Embedding of `KrakenClient._format_symbol`.  The `Except` models the
`ValueError` Python raises when `symbol.split('/')` does not yield exactly
two parts for the tuple unpacking `base, quote = symbol.split('/')`. -/
def formatSymbol (s : List Char) : Except Unit (List Char) :=
  if s = [] ∨ '/' ∉ s then .ok s
  else
    match splitSlash s with
    | [b, q] => .ok (mapAsset b ++ '/' :: mapAsset q)
    | _ => .error ()

/-- Embedding of `KrakenClient._reverse_format_symbol`. -/
def reverseFormatSymbol (s : List Char) : Except Unit (List Char) :=
  if s = [] ∨ '/' ∉ s then .ok s
  else
    match splitSlash s with
    | [b, q] => .ok (reverseAsset b ++ '/' :: reverseAsset q)
    | _ => .error ()

/-- The round trip `_reverse_format_symbol(_format_symbol(s))`. -/
def formatRoundTrip (s : List Char) : Except Unit (List Char) :=
  (formatSymbol s).bind reverseFormatSymbol

/-- An asset is `good` when it is a key of the mapping, or never occurs as
a Kraken code in the mapping.  These are the assets for which the reverse
lookup undoes the forward lookup. -/
def goodAsset (a : List Char) : Prop :=
  a ∈ ASSET_MAPPING.map Prod.fst ∨ a ∉ ASSET_MAPPING.map Prod.snd

instance (a : List Char) : Decidable (goodAsset a) := by
  unfold goodAsset; infer_instance

theorem splitSlash_no_slash {s : List Char} (h : '/' ∉ s) : splitSlash s = [s] := by
  induction s with
  | nil => rfl
  | cons c cs ih =>
    have hc : c ≠ '/' := fun hc => h (hc ▸ List.mem_cons_self c cs)
    have hcs : '/' ∉ cs := fun hm => h (List.mem_cons_of_mem c hm)
    simp [splitSlash, hc, ih hcs]

theorem splitSlash_append {b q : List Char} (hb : '/' ∉ b) :
    splitSlash (b ++ '/' :: q) = b :: splitSlash q := by
  induction b with
  | nil =>
    simp [splitSlash]
  | cons c cs ih =>
    have hc : c ≠ '/' := fun hc => hb (hc ▸ List.mem_cons_self c cs)
    have hcs : '/' ∉ cs := fun hm => hb (List.mem_cons_of_mem c hm)
    have hrec := ih hcs
    simp only [List.cons_append, splitSlash, if_neg hc]
    rw [show cs.append ('/' :: q) = cs ++ '/' :: q from rfl, hrec]

theorem mapAsset_no_slash {a : List Char} (ha : '/' ∉ a) : '/' ∉ mapAsset a := by
  unfold mapAsset
  cases hf : ASSET_MAPPING.find? (fun p => p.1 == a) with
  | none => exact ha
  | some p =>
    have hp : p ∈ ASSET_MAPPING := List.mem_of_find?_eq_some hf
    have : ∀ x ∈ ASSET_MAPPING, '/' ∉ x.2 := by decide
    exact this p hp

theorem reverseAsset_mapAsset {a : List Char} (h : goodAsset a) :
    reverseAsset (mapAsset a) = a := by
  by_cases hk : a ∈ ASSET_MAPPING.map Prod.fst
  · have : ∀ x ∈ ASSET_MAPPING.map Prod.fst, reverseAsset (mapAsset x) = x := by decide
    exact this a hk
  · have hnone : ASSET_MAPPING.find? (fun p => p.1 == a) = none := by
      rw [List.find?_eq_none]
      intro p hp hbeq
      exact hk (List.mem_map.mpr ⟨p, hp, by simpa using hbeq⟩)
    have hmap : mapAsset a = a := by unfold mapAsset; rw [hnone]
    rcases h with h | hv
    · exact absurd h hk
    · have hnone2 : ASSET_MAPPING.find? (fun p => p.2 == a) = none := by
        rw [List.find?_eq_none]
        intro p hp hbeq
        exact hv (List.mem_map.mpr ⟨p, hp, by simpa using hbeq⟩)
      rw [hmap]; unfold reverseAsset; rw [hnone2]

/-- C5 counterexample helper lemma: the round trip on a well-formed pair
reduces to the per-asset round trips. -/
theorem formatRoundTrip_pair {b q : List Char} (hb : '/' ∉ b) (hq : '/' ∉ q) :
    formatRoundTrip (b ++ '/' :: q) =
      .ok (reverseAsset (mapAsset b) ++ '/' :: reverseAsset (mapAsset q)) := by
  have hsl : '/' ∈ b ++ '/' :: q := List.mem_append_right b (List.mem_cons_self _ _)
  have hsplit : splitSlash (b ++ '/' :: q) = [b, q] := by
    rw [splitSlash_append hb, splitSlash_no_slash hq]
  unfold formatRoundTrip formatSymbol
  rw [if_neg (by simp [hsl]), hsplit]
  have hb2 : '/' ∉ mapAsset b := mapAsset_no_slash hb
  have hq2 : '/' ∉ mapAsset q := mapAsset_no_slash hq
  have hsl2 : '/' ∈ mapAsset b ++ '/' :: mapAsset q :=
    List.mem_append_right _ (List.mem_cons_self _ _)
  have hsplit2 : splitSlash (mapAsset b ++ '/' :: mapAsset q) = [mapAsset b, mapAsset q] := by
    rw [splitSlash_append hb2, splitSlash_no_slash hq2]
  show reverseFormatSymbol _ = _
  unfold reverseFormatSymbol
  rw [if_neg (by simp [hsl2]), hsplit2]

instance {ε α : Type} [DecidableEq ε] [DecidableEq α] : DecidableEq (Except ε α)
  | .error e, .error f =>
    if h : e = f then .isTrue (by rw [h]) else .isFalse (fun hh => h (by injection hh))
  | .error _, .ok _ => .isFalse (fun hh => Except.noConfusion hh)
  | .ok _, .error _ => .isFalse (fun hh => Except.noConfusion hh)
  | .ok a, .ok b =>
    if h : a = b then .isTrue (by rw [h]) else .isFalse (fun hh => h (by injection hh))

/-- C5 (counterexample): the claim asserts the round trip is the identity
for every symbol string.  It fails at `"XBT/USDT"`: the forward direction
leaves it unchanged (XBT is not a mapping key), but the reverse direction
maps the exchange code XBT back to BTC, producing `"BTC/USDT"`. -/
theorem c5_round_trip_counterexample :
    formatRoundTrip "XBT/USDT".data = .ok "BTC/USDT".data ∧
      formatRoundTrip "XBT/USDT".data ≠ .ok "XBT/USDT".data := by
  constructor
  · decide
  · decide

/-- C5 (amended): the round trip `_reverse_format_symbol(_format_symbol(s))`
is the identity for a symbol with no slash at all, and for every
well-formed symbol `base/quote` (one slash) whose base and quote assets
are each either a key of `ASSET_MAPPING` or not an exchange code occurring
among its values.  It is not the identity for symbols such as
`"XBT/USDT"` whose parts collide with exchange codes of other assets. -/
theorem c5_round_trip_amended (b q : List Char)
    (hb : '/' ∉ b) (hq : '/' ∉ q) (hgb : goodAsset b) (hgq : goodAsset q) :
    formatRoundTrip (b ++ '/' :: q) = .ok (b ++ '/' :: q) ∧
      ∀ s : List Char, '/' ∉ s → formatRoundTrip s = .ok s := by
  constructor
  · rw [formatRoundTrip_pair hb hq, reverseAsset_mapAsset hgb, reverseAsset_mapAsset hgq]
  · intro s hs
    unfold formatRoundTrip formatSymbol
    rw [if_pos (Or.inr hs)]
    show reverseFormatSymbol s = .ok s
    unfold reverseFormatSymbol
    rw [if_pos (Or.inr hs)]

/-- C5 witness: the amended round-trip theorem evaluated at the mapped
symbol `"BTC/USDT"` and at the slash-free string `"XYZ"`. -/
theorem c5_round_trip_amended_witness :
    formatRoundTrip ("BTC".data ++ '/' :: "USDT".data) =
        .ok ("BTC".data ++ '/' :: "USDT".data) ∧
      formatRoundTrip "XYZ".data = .ok "XYZ".data :=
  ⟨(c5_round_trip_amended "BTC".data "USDT".data (by decide) (by decide)
      (by decide) (by decide)).1,
   (c5_round_trip_amended "BTC".data "USDT".data (by decide) (by decide)
      (by decide) (by decide)).2 "XYZ".data (by decide)⟩

/-! ### Subscription management (`kraken_client.py`: `_subscribe_to_symbol`) -/

/-- The part of `KrakenClient` state that subscription handling touches:
the set of exchange-formatted symbols subscribed so far (`self.subscriptions`,
kept as an insertion-ordered duplicate-free list) together with the list of
subscribe frames sent over the socket, identified by the formatted pair
they carry. -/
structure ClientSubState where
  subscriptions : List (List Char)
  sentFrames : List (List Char)
  deriving DecidableEq

/-- Embedding of `KrakenClient._subscribe_to_symbol`: format the symbol
(which can raise, propagated as `Except.error`); if the formatted symbol
is already subscribed do nothing, otherwise send one ticker-subscribe
frame for it and add it to the subscription set. -/
def subscribeToSymbol (st : ClientSubState) (symbol : List Char) :
    Except Unit ClientSubState :=
  match formatSymbol symbol with
  | .error e => .error e
  | .ok f =>
    if f ∈ st.subscriptions then .ok st
    else .ok { subscriptions := st.subscriptions ++ [f],
               sentFrames := st.sentFrames ++ [f] }

/-- A sequence of `_subscribe_to_symbol` calls threaded through the client
state; a call that raises leaves the state unchanged (the exception is
thrown before any mutation). -/
def processSubscribeCalls (syms : List (List Char)) (st : ClientSubState) :
    ClientSubState :=
  syms.foldl
    (fun s sym =>
      match subscribeToSymbol s sym with
      | .ok s2 => s2
      | .error _ => s) st

/-- The freshly constructed client: no subscriptions, no frames sent. -/
def emptyClientSubState : ClientSubState := ⟨[], []⟩

theorem processSubscribeCalls_cons (sym : List Char) (rest : List (List Char))
    (st : ClientSubState) :
    processSubscribeCalls (sym :: rest) st =
      processSubscribeCalls rest
        (match subscribeToSymbol st sym with
          | .ok s2 => s2
          | .error _ => st) := rfl

theorem processSubscribeCalls_invariant (syms : List (List Char)) :
    ∀ st : ClientSubState, st.sentFrames = st.subscriptions →
      st.subscriptions.Nodup →
      (processSubscribeCalls syms st).sentFrames =
          (processSubscribeCalls syms st).subscriptions ∧
        (processSubscribeCalls syms st).subscriptions.Nodup := by
  induction syms with
  | nil => intro st h1 h2; exact ⟨h1, h2⟩
  | cons sym rest ih =>
    intro st h1 h2
    rw [processSubscribeCalls_cons]
    cases hf : formatSymbol sym with
    | error e =>
      have hstep : (match subscribeToSymbol st sym with
          | .ok s2 => s2
          | .error _ => st) = st := by
        unfold subscribeToSymbol; rw [hf]
      rw [hstep]
      exact ih st h1 h2
    | ok f =>
      by_cases hmem : f ∈ st.subscriptions
      · have hstep : (match subscribeToSymbol st sym with
            | .ok s2 => s2
            | .error _ => st) = st := by
          unfold subscribeToSymbol; rw [hf]; simp [hmem]
        rw [hstep]
        exact ih st h1 h2
      · have hstep : (match subscribeToSymbol st sym with
            | .ok s2 => s2
            | .error _ => st) =
            ⟨st.subscriptions ++ [f], st.sentFrames ++ [f]⟩ := by
          unfold subscribeToSymbol; rw [hf]; simp [hmem]
        rw [hstep]
        refine ih _ (by simp [h1]) ?_
        simp [List.nodup_append, h2, hmem]

/-- C9: subscribing to a symbol whose formatted form is already subscribed
sends no frame and leaves the state unchanged, and for any sequence of
subscribe calls starting from a fresh client the sent frames carry
pairwise distinct formatted symbols — at most one frame per
exchange-formatted symbol. -/
theorem c9_idempotent_subscribe (st : ClientSubState) (symbol f : List Char)
    (hf : formatSymbol symbol = .ok f) (hmem : f ∈ st.subscriptions) :
    subscribeToSymbol st symbol = .ok st ∧
      ∀ syms : List (List Char),
        (processSubscribeCalls syms emptyClientSubState).sentFrames.Nodup := by
  constructor
  · unfold subscribeToSymbol; rw [hf]; simp [hmem]
  · intro syms
    have h := processSubscribeCalls_invariant syms emptyClientSubState rfl List.nodup_nil
    rw [h.1]
    exact h.2

/-- C9 witness: a client already subscribed to the formatted pair
`XBT/USDT` ignores a second subscription to `BTC/USDT`, and a concrete
call sequence with repeats sends each frame once. -/
theorem c9_idempotent_subscribe_witness :
    subscribeToSymbol ⟨["XBT/USDT".data], ["XBT/USDT".data]⟩ "BTC/USDT".data =
        .ok ⟨["XBT/USDT".data], ["XBT/USDT".data]⟩ ∧
      (processSubscribeCalls ["BTC/USDT".data, "ETH/USDT".data, "XBT/USDT".data]
          emptyClientSubState).sentFrames.Nodup :=
  ⟨(c9_idempotent_subscribe ⟨["XBT/USDT".data], ["XBT/USDT".data]⟩
      "BTC/USDT".data "XBT/USDT".data (by decide) (by decide)).1,
   (c9_idempotent_subscribe ⟨["XBT/USDT".data], ["XBT/USDT".data]⟩
      "BTC/USDT".data "XBT/USDT".data (by decide) (by decide)).2 _⟩

/-! ### Connection retry (`kraken_client.py`: `connect`) -/

/-- Embedding of `KrakenClient.connect` for a client without an existing
socket (`self.ws is None`, so the liveness-ping branch is skipped).
`oracle n` is the outcome of the underlying `websockets.connect` call made
while `self._reconnect_attempts == n`.  The result triple is
`(return value, final _reconnect_attempts, number of underlying connection
attempts performed)`.  On success the counter resets to `0`; on failure it
is incremented, and once it reaches `maxAttempts` the call returns `False`
instead of recursing again (the backoff sleep has no observable effect
here and is dropped). -/
def connect (maxAttempts : ℕ) (oracle : ℕ → Bool) (attempts : ℕ) :
    Bool × ℕ × ℕ :=
  if oracle attempts then (true, 0, 1)
  else
    let a := attempts + 1
    if maxAttempts ≤ a then (false, a, 1)
    else
      let r := connect maxAttempts oracle a
      (r.1, r.2.1, r.2.2 + 1)
  termination_by maxAttempts - attempts
  decreasing_by
    rename_i h
    omega

theorem connect_all_fail (maxAttempts : ℕ) (oracle : ℕ → Bool)
    (hfail : ∀ n, oracle n = false) :
    ∀ d attempts, attempts < maxAttempts → maxAttempts - attempts = d →
      connect maxAttempts oracle attempts = (false, maxAttempts, d) := by
  intro d
  induction d with
  | zero => intro attempts hlt hd; omega
  | succ d ih =>
    intro attempts hlt hd
    rw [connect, hfail attempts, if_neg (by simp)]
    by_cases hstop : maxAttempts ≤ attempts + 1
    · have h1 : maxAttempts = attempts + 1 := by omega
      have h2 : d = 0 := by omega
      simp [hstop, h1, h2]
    · have hlt2 : attempts + 1 < maxAttempts := by omega
      have hrec := ih (attempts + 1) hlt2 (by omega)
      simp [hstop, hrec]

/-- C4: with `_max_reconnect_attempts = 5` and every underlying connection
attempt failing, `connect()` starting from attempt counter `0` performs
exactly 5 attempts, returns `False`, and leaves the counter at 5; and
whenever the underlying attempt for the current counter value succeeds,
`connect()` returns `True` after that single attempt with the counter
reset to `0`. -/
theorem c4_reconnect_bound (oracle oracle2 : ℕ → Bool) (attempts : ℕ)
    (hfail : ∀ n, oracle n = false) (hsucc : oracle2 attempts = true) :
    connect 5 oracle 0 = (false, 5, 5) ∧
      connect 5 oracle2 attempts = (true, 0, 1) := by
  constructor
  · exact connect_all_fail 5 oracle hfail 5 0 (by omega) rfl
  · rw [connect, hsucc]; simp

/-- C4 witness: the reconnect-bound theorem evaluated at the always-failing
and always-succeeding outcome sequences. -/
theorem c4_reconnect_bound_witness :
    connect 5 (fun _ => false) 0 = (false, 5, 5) ∧
      connect 5 (fun _ => true) 3 = (true, 0, 1) :=
  c4_reconnect_bound (fun _ => false) (fun _ => true) 3 (fun _ => rfl) rfl

/-! ### Candle store (`kraken_client.py`: `_process_message` OHLC branch, `get_ohlcv`) -/

/-- A candle as built by `_process_message` from an OHLC payload
(`opn` stands for the source's `open` field, a reserved word in Lean;
the payload's vwap and count entries are not stored). -/
structure Candle where
  timestamp : ℤ
  opn : ℚ
  high : ℚ
  low : ℚ
  close : ℚ
  volume : ℚ
  deriving DecidableEq

/-- Embedding of the upsert in the OHLC branch of `_process_message`: scan
the symbol's stored list for an entry with the same timestamp and replace
the first one found; if none matches, append the candle at the end. -/
def upsertCandle : List Candle → Candle → List Candle
  | [], c => [c]
  | x :: xs, c =>
    if x.timestamp = c.timestamp then c :: xs
    else x :: upsertCandle xs c

/-- A sequence of OHLC messages for one symbol processed in order against
that symbol's stored candle list. -/
def processOhlcMessages (msgs : List Candle) (store : List Candle) : List Candle :=
  msgs.foldl upsertCandle store

/-- Embedding of `KrakenClient.get_ohlcv` for a symbol that is present:
Python's `lst[-limit:]`, which is the whole list when `limit == 0` and the
most recent `limit` entries otherwise. -/
def getOhlcv (store : List Candle) (limit : ℕ) : List Candle :=
  if limit = 0 then store else store.drop (store.length - limit)

theorem upsertCandle_timestamps (s : List Candle) (c : Candle) :
    (upsertCandle s c).map Candle.timestamp =
      if c.timestamp ∈ s.map Candle.timestamp then s.map Candle.timestamp
      else s.map Candle.timestamp ++ [c.timestamp] := by
  induction s with
  | nil => simp [upsertCandle]
  | cons x xs ih =>
    by_cases hx : x.timestamp = c.timestamp
    · simp [upsertCandle, hx]
    · have hne : c.timestamp ≠ x.timestamp := fun h => hx h.symm
      simp only [upsertCandle, if_neg hx, List.map_cons, List.mem_cons, hne, false_or]
      rw [ih]
      by_cases hmem : c.timestamp ∈ xs.map Candle.timestamp <;> simp [hmem]

theorem upsertCandle_nodup {s : List Candle} (h : (s.map Candle.timestamp).Nodup)
    (c : Candle) : ((upsertCandle s c).map Candle.timestamp).Nodup := by
  rw [upsertCandle_timestamps]
  by_cases hmem : c.timestamp ∈ s.map Candle.timestamp
  · simpa [hmem] using h
  · simp [hmem, List.nodup_append, h]

theorem upsertCandle_not_mem {s : List Candle} {c : Candle}
    (h : c.timestamp ∉ s.map Candle.timestamp) : upsertCandle s c = s ++ [c] := by
  induction s with
  | nil => rfl
  | cons x xs ih =>
    have hx : x.timestamp ≠ c.timestamp := by
      intro he; exact h (by simp [he])
    have hxs : c.timestamp ∉ xs.map Candle.timestamp := by
      intro hm; exact h (by simp [hm])
    simp [upsertCandle, hx, ih hxs]

theorem upsertCandle_filter {s : List Candle} (h : (s.map Candle.timestamp).Nodup)
    (c : Candle) :
    (upsertCandle s c).filter (fun x => x.timestamp = c.timestamp) = [c] := by
  induction s with
  | nil => simp [upsertCandle]
  | cons x xs ih =>
    have hxs : (xs.map Candle.timestamp).Nodup := (List.nodup_cons.mp (by simpa using h)).2
    have hxout : x.timestamp ∉ xs.map Candle.timestamp :=
      (List.nodup_cons.mp (by simpa using h)).1
    by_cases hx : x.timestamp = c.timestamp
    · have : ∀ y ∈ xs, ¬ (y.timestamp = c.timestamp) := by
        intro y hy he
        exact hxout (by rw [hx, ← he]; exact List.mem_map_of_mem Candle.timestamp hy)
      rw [upsertCandle]
      rw [if_pos hx]
      rw [List.filter_cons]
      simp only [decide_eq_true_eq, if_pos rfl]
      have hnil : xs.filter (fun x => decide (x.timestamp = c.timestamp)) = [] := by
        rw [List.filter_eq_nil_iff]
        intro y hy
        simpa using this y hy
      rw [hnil]
      simp
    · rw [upsertCandle, if_neg hx, List.filter_cons]
      simp only [decide_eq_true_eq, hx, if_false]
      exact ih hxs

/-- C6: from any stored candle list with distinct timestamps, processing two
OHLC messages sharing one timestamp leaves exactly one entry with that
timestamp, holding the second message's values; and a message whose
timestamp is not yet stored is appended as a new entry. -/
theorem c6_candle_upsert (s : List Candle) (c1 c2 : Candle)
    (hnd : (s.map Candle.timestamp).Nodup) (_hts : c1.timestamp = c2.timestamp) :
    (upsertCandle (upsertCandle s c1) c2).filter
        (fun x => x.timestamp = c2.timestamp) = [c2] ∧
      ∀ c : Candle, c.timestamp ∉ s.map Candle.timestamp →
        upsertCandle s c = s ++ [c] := by
  refine ⟨?_, fun c hc => upsertCandle_not_mem hc⟩
  exact upsertCandle_filter (upsertCandle_nodup hnd c1) c2

/-- C6 witness: the upsert theorem evaluated on two concrete messages with
timestamp 7 processed into a store holding timestamps 5 and 7, plus a
fresh timestamp 9 being appended. -/
theorem c6_candle_upsert_witness :
    (upsertCandle (upsertCandle
          [⟨5, 1, 1, 1, 1, 1⟩, ⟨7, 2, 2, 2, 2, 2⟩] ⟨7, 3, 3, 3, 3, 3⟩)
          ⟨7, 4, 4, 4, 4, 4⟩).filter
        (fun x => x.timestamp = (7 : ℤ)) = [⟨7, 4, 4, 4, 4, 4⟩] ∧
      upsertCandle [⟨5, 1, 1, 1, 1, 1⟩, ⟨7, 2, 2, 2, 2, 2⟩] ⟨9, 4, 4, 4, 4, 4⟩ =
        [⟨5, 1, 1, 1, 1, 1⟩, ⟨7, 2, 2, 2, 2, 2⟩, ⟨9, 4, 4, 4, 4, 4⟩] :=
  ⟨(c6_candle_upsert [⟨5, 1, 1, 1, 1, 1⟩, ⟨7, 2, 2, 2, 2, 2⟩]
      ⟨7, 3, 3, 3, 3, 3⟩ ⟨7, 4, 4, 4, 4, 4⟩ (by decide) (by decide)).1,
   (c6_candle_upsert [⟨5, 1, 1, 1, 1, 1⟩, ⟨7, 2, 2, 2, 2, 2⟩]
      ⟨7, 3, 3, 3, 3, 3⟩ ⟨7, 4, 4, 4, 4, 4⟩ (by decide) (by decide)).2
      ⟨9, 4, 4, 4, 4, 4⟩ (by decide)⟩

/-- C7 (counterexample): the claim asserts the stored candle series always
has strictly ascending timestamps and a bounded length with oldest-entry
eviction.  Processing a message with timestamp 5 and then one with
timestamp 3 stores both, in that order: the series is not ascending, and
nothing is ever evicted. -/
theorem c7_candle_series_counterexample :
    (processOhlcMessages [⟨5, 1, 1, 1, 1, 1⟩, ⟨3, 2, 2, 2, 2, 2⟩] []).map
        Candle.timestamp = [5, 3] ∧
      ¬ List.Pairwise (fun a b => a < b)
        ((processOhlcMessages [⟨5, 1, 1, 1, 1, 1⟩, ⟨3, 2, 2, 2, 2, 2⟩] []).map
          Candle.timestamp) := by
  constructor
  · decide
  · decide

theorem processOhlcMessages_cons (m : Candle) (ms : List Candle) (s : List Candle) :
    processOhlcMessages (m :: ms) s = processOhlcMessages ms (upsertCandle s m) := rfl

theorem processOhlcMessages_timestamps (msgs : List Candle) :
    ∀ s : List Candle, (s.map Candle.timestamp).Nodup →
      ((processOhlcMessages msgs s).map Candle.timestamp).Nodup ∧
        ∀ t : ℤ, t ∈ (processOhlcMessages msgs s).map Candle.timestamp ↔
          t ∈ s.map Candle.timestamp ∨ t ∈ msgs.map Candle.timestamp := by
  induction msgs with
  | nil =>
    intro s h
    exact ⟨h, fun t => by simp [processOhlcMessages]⟩
  | cons m ms ih =>
    intro s h
    rw [processOhlcMessages_cons]
    have h2 := upsertCandle_nodup h m
    obtain ⟨ha, hb⟩ := ih (upsertCandle s m) h2
    refine ⟨ha, fun t => ?_⟩
    rw [hb t, upsertCandle_timestamps]
    by_cases hmem : m.timestamp ∈ s.map Candle.timestamp
    · rw [if_pos hmem]
      simp only [List.map_cons, List.mem_cons]
      constructor
      · tauto
      · rintro (h | rfl | h) <;> tauto
    · rw [if_neg hmem]
      simp only [List.mem_append, List.mem_singleton, List.map_cons, List.mem_cons]
      tauto

/-- C7 (amended): for any sequence of processed OHLC messages, the stored
candle series has pairwise distinct timestamps and exactly one entry per
distinct timestamp that appeared in the messages — but it is neither kept
in ascending order nor bounded: no eviction ever happens, and only
`get_ohlcv` truncates to the most recent `limit` candles on read. -/
theorem c7_candle_series_amended (msgs : List Candle) (lim : ℕ) (hlim : 0 < lim) :
    ((processOhlcMessages msgs []).map Candle.timestamp).Nodup ∧
      (∀ t : ℤ, t ∈ (processOhlcMessages msgs []).map Candle.timestamp ↔
        t ∈ msgs.map Candle.timestamp) ∧
      (processOhlcMessages msgs []).length =
        (msgs.map Candle.timestamp).toFinset.card ∧
      (getOhlcv (processOhlcMessages msgs []) lim).length ≤ lim := by
  obtain ⟨hnd, hmem⟩ := processOhlcMessages_timestamps msgs [] (by simp)
  have hmem2 : ∀ t : ℤ, t ∈ (processOhlcMessages msgs []).map Candle.timestamp ↔
      t ∈ msgs.map Candle.timestamp := by
    intro t; rw [hmem t]; simp
  refine ⟨hnd, hmem2, ?_, ?_⟩
  · have hfin : ((processOhlcMessages msgs []).map Candle.timestamp).toFinset =
        (msgs.map Candle.timestamp).toFinset := by
      ext t; simp only [List.mem_toFinset]; exact hmem2 t
    calc (processOhlcMessages msgs []).length
        = ((processOhlcMessages msgs []).map Candle.timestamp).length := by
          rw [List.length_map]
      _ = ((processOhlcMessages msgs []).map Candle.timestamp).toFinset.card :=
          (List.toFinset_card_of_nodup hnd).symm
      _ = (msgs.map Candle.timestamp).toFinset.card := by rw [hfin]
  · unfold getOhlcv
    rw [if_neg (by omega)]
    rw [List.length_drop]
    omega

/-- C7 witness: the amended series theorem evaluated on two concrete
out-of-order messages and read limit 1. -/
theorem c7_candle_series_amended_witness :
    ((processOhlcMessages [⟨5, 1, 1, 1, 1, 1⟩, ⟨3, 2, 2, 2, 2, 2⟩] []).map
        Candle.timestamp).Nodup ∧
      (getOhlcv (processOhlcMessages [⟨5, 1, 1, 1, 1, 1⟩, ⟨3, 2, 2, 2, 2, 2⟩] []) 1).length ≤ 1 :=
  ⟨(c7_candle_series_amended [⟨5, 1, 1, 1, 1, 1⟩, ⟨3, 2, 2, 2, 2, 2⟩] 1
      (by decide)).1,
   (c7_candle_series_amended [⟨5, 1, 1, 1, 1, 1⟩, ⟨3, 2, 2, 2, 2, 2⟩] 1
      (by decide)).2.2.2⟩

/-! ### Paper-trading ledger (`simulator.py`: `TradingSimulator`, `portfolio/balance.py`) -/

/-- A trade record as appended to `trades_history`; `value` is the `cost`
key for a buy and the `revenue` key for a sell (always `price * volume`). -/
structure Trade where
  symbol : String
  side : String
  price : ℚ
  volume : ℚ
  value : ℚ
  timestamp : ℤ
  deriving DecidableEq

/-- Lookup in an insertion-ordered association list (a Python `dict`):
the value at the first — and, for a dict, only — entry with the key. -/
def dictGet (l : List (String × ℚ)) (k : String) : Option ℚ :=
  (l.find? (fun p => p.1 == k)).map (fun p => p.2)

/-- Python `d.get(k, default)`. -/
def dictGetD (l : List (String × ℚ)) (k : String) (d : ℚ) : ℚ :=
  (dictGet l k).getD d

/-- Python `d[k] = v`: update in place if the key is present, else append. -/
def dictSet : List (String × ℚ) → String → ℚ → List (String × ℚ)
  | [], k, v => [(k, v)]
  | (k2, v2) :: rest, k, v =>
    if k2 = k then (k, v) :: rest else (k2, v2) :: dictSet rest k v

/-- Python `del d[k]` for a key known to be present (dict keys are unique,
so removing the first occurrence is removal of the occurrence). -/
def dictRemove : List (String × ℚ) → String → List (String × ℚ)
  | [], _ => []
  | (k2, v2) :: rest, k =>
    if k2 = k then rest else (k2, v2) :: dictRemove rest k

/-- The state of a `TradingSimulator`: the `Balance.available` field, the
`positions` dict and the `trades_history` list. -/
structure SimState where
  balance : ℚ
  positions : List (String × ℚ)
  trades : List Trade
  deriving DecidableEq

/-- Embedding of `TradingSimulator.execute_buy`.  Checks mirror the source
order: `_validate_symbol` (empty, then missing slash), then non-positive
volume, then non-positive price, each raising `ValueError`; then
`balance.decrease(cost)` returns `False` on insufficient funds (no state
change); otherwise balance and position are updated together and a
timestamped trade record is appended.  `now` is `int(time.time())`. -/
def executeBuy (st : SimState) (symbol : String) (price volume : ℚ) (now : ℤ) :
    Except String (Bool × SimState) :=
  if symbol = "" then .error "Symbol must not be empty"
  else if '/' ∉ symbol.data then .error "Invalid symbol format"
  else if volume ≤ 0 then .error "Volume must be positive"
  else if price ≤ 0 then .error "Price must be positive"
  else if price * volume > st.balance then .ok (false, st)
  else .ok (true,
    { balance := st.balance - price * volume,
      positions := dictSet st.positions symbol (dictGetD st.positions symbol 0 + volume),
      trades := st.trades ++ [⟨symbol, "buy", price, volume, price * volume, now⟩] })

/-- Embedding of `TradingSimulator.execute_sell`: same validation; returns
`False` without changes when the symbol is not in `positions` or the held
volume is below the requested one; otherwise credits the revenue, shrinks
the position (deleting it when it reaches exactly zero) and appends a
timestamped trade record. -/
def executeSell (st : SimState) (symbol : String) (price volume : ℚ) (now : ℤ) :
    Except String (Bool × SimState) :=
  if symbol = "" then .error "Symbol must not be empty"
  else if '/' ∉ symbol.data then .error "Invalid symbol format"
  else if volume ≤ 0 then .error "Volume must be positive"
  else if price ≤ 0 then .error "Price must be positive"
  else
    match dictGet st.positions symbol with
    | none => .ok (false, st)
    | some held =>
      if held < volume then .ok (false, st)
      else .ok (true,
        { balance := st.balance + price * volume,
          positions :=
            if held - volume = 0 then dictRemove st.positions symbol
            else dictSet st.positions symbol (held - volume),
          trades := st.trades ++ [⟨symbol, "sell", price, volume, price * volume, now⟩] })

/-- Check whether an embedded call raised (`Except.error`). -/
def raisesError {α : Type} : Except String α → Bool
  | .error _ => true
  | .ok _ => false

theorem executeBuy_error_iff (st : SimState) (symbol : String) (price volume : ℚ)
    (now : ℤ) :
    raisesError (executeBuy st symbol price volume now) = true ↔
      symbol = "" ∨ '/' ∉ symbol.data ∨ volume ≤ 0 ∨ price ≤ 0 := by
  unfold executeBuy
  by_cases h1 : symbol = ""
  · simp [h1, raisesError]
  by_cases h2 : '/' ∈ symbol.data
  case neg => simp [h1, h2, raisesError]
  by_cases h3 : volume ≤ 0
  · simp [h1, h2, h3, raisesError]
  by_cases h4 : price ≤ 0
  · simp [h1, h2, h3, h4, raisesError]
  rw [if_neg h1, if_neg (by simp [h2]), if_neg h3, if_neg h4]
  by_cases h5 : price * volume > st.balance
  · simp [h5, raisesError, h1, h2, h3, h4]
  · simp [h5, raisesError, h1, h2, h3, h4]

theorem executeSell_error_iff (st : SimState) (symbol : String) (price volume : ℚ)
    (now : ℤ) :
    raisesError (executeSell st symbol price volume now) = true ↔
      symbol = "" ∨ '/' ∉ symbol.data ∨ volume ≤ 0 ∨ price ≤ 0 := by
  unfold executeSell
  by_cases h1 : symbol = ""
  · simp [h1, raisesError]
  by_cases h2 : '/' ∈ symbol.data
  case neg => simp [h1, h2, raisesError]
  by_cases h3 : volume ≤ 0
  · simp [h1, h2, h3, raisesError]
  by_cases h4 : price ≤ 0
  · simp [h1, h2, h3, h4, raisesError]
  rw [if_neg h1, if_neg (by simp [h2]), if_neg h3, if_neg h4]
  cases hdg : dictGet st.positions symbol with
  | none => simp [raisesError, h1, h2, h3, h4]
  | some held =>
    by_cases hlt : held < volume
    · simp [hlt, raisesError, h1, h2, h3, h4]
    · simp [hlt, raisesError, h1, h2, h3, h4]

/-- C8: `execute_buy` and `execute_sell` raise `ValueError` exactly when the
price or volume is non-positive or the symbol is empty or slash-free; under
valid inputs a buy whose cost exceeds the balance and a sell whose held
position is below the requested volume return `False` with the state
untouched, and on success balance, position and the timestamped trade
record are updated together. -/
theorem c8_trade_validation_atomicity (st : SimState) (symbol : String)
    (price volume : ℚ) (now : ℤ) :
    (raisesError (executeBuy st symbol price volume now) = true ↔
      symbol = "" ∨ '/' ∉ symbol.data ∨ volume ≤ 0 ∨ price ≤ 0) ∧
    (raisesError (executeSell st symbol price volume now) = true ↔
      symbol = "" ∨ '/' ∉ symbol.data ∨ volume ≤ 0 ∨ price ≤ 0) ∧
    (symbol ≠ "" → '/' ∈ symbol.data → 0 < volume → 0 < price →
      st.balance < price * volume →
      executeBuy st symbol price volume now = .ok (false, st)) ∧
    (symbol ≠ "" → '/' ∈ symbol.data → 0 < volume → 0 < price →
      dictGetD st.positions symbol 0 < volume →
      executeSell st symbol price volume now = .ok (false, st)) ∧
    (symbol ≠ "" → '/' ∈ symbol.data → 0 < volume → 0 < price →
      price * volume ≤ st.balance →
      executeBuy st symbol price volume now = .ok (true,
        { balance := st.balance - price * volume,
          positions := dictSet st.positions symbol
            (dictGetD st.positions symbol 0 + volume),
          trades := st.trades ++ [⟨symbol, "buy", price, volume,
            price * volume, now⟩] })) ∧
    (∀ held : ℚ, symbol ≠ "" → '/' ∈ symbol.data → 0 < volume → 0 < price →
      dictGet st.positions symbol = some held → volume ≤ held →
      executeSell st symbol price volume now = .ok (true,
        { balance := st.balance + price * volume,
          positions :=
            if held - volume = 0 then dictRemove st.positions symbol
            else dictSet st.positions symbol (held - volume),
          trades := st.trades ++ [⟨symbol, "sell", price, volume,
            price * volume, now⟩] })) := by
  refine ⟨executeBuy_error_iff st symbol price volume now,
    executeSell_error_iff st symbol price volume now, ?_, ?_, ?_, ?_⟩
  · intro h1 h2 h3 h4 h5
    unfold executeBuy
    rw [if_neg h1, if_neg (by simp [h2]), if_neg (not_le.mpr h3),
      if_neg (not_le.mpr h4), if_pos (by exact h5)]
  · intro h1 h2 h3 h4 h5
    unfold executeSell
    rw [if_neg h1, if_neg (by simp [h2]), if_neg (not_le.mpr h3),
      if_neg (not_le.mpr h4)]
    cases hdg : dictGet st.positions symbol with
    | none => rfl
    | some held =>
      have : held < volume := by
        have : dictGetD st.positions symbol 0 = held := by
          unfold dictGetD; rw [hdg]; rfl
        rw [this] at h5; exact h5
      dsimp only
      rw [if_pos this]
  · intro h1 h2 h3 h4 h5
    unfold executeBuy
    rw [if_neg h1, if_neg (by simp [h2]), if_neg (not_le.mpr h3),
      if_neg (not_le.mpr h4), if_neg (not_lt.mpr h5)]
  · intro held h1 h2 h3 h4 hdg hle
    unfold executeSell
    rw [if_neg h1, if_neg (by simp [h2]), if_neg (not_le.mpr h3),
      if_neg (not_le.mpr h4), hdg]
    dsimp only
    rw [if_neg (not_lt.mpr hle)]

/-- C8 witness: the validation/atomicity theorem evaluated on concrete
trades — a malformed symbol raising, an unaffordable buy and an oversized
sell rejected without state change, and a successful buy and sell. -/
theorem c8_trade_validation_atomicity_witness :
    raisesError (executeBuy ⟨100, [], []⟩ "BTCUSDT" 1 1 0) = true ∧
      executeBuy ⟨5, [], []⟩ "BTC/USDT" 10 1 0 = .ok (false, ⟨5, [], []⟩) ∧
      executeSell ⟨0, [("BTC/USDT", 1)], []⟩ "BTC/USDT" 10 2 0 =
        .ok (false, ⟨0, [("BTC/USDT", 1)], []⟩) ∧
      executeBuy ⟨100, [], []⟩ "BTC/USDT" 10 1 3 =
        .ok (true, ⟨90, [("BTC/USDT", 1)], [⟨"BTC/USDT", "buy", 10, 1, 10, 3⟩]⟩) ∧
      executeSell ⟨0, [("BTC/USDT", 2)], []⟩ "BTC/USDT" 10 1 4 =
        .ok (true, ⟨10, [("BTC/USDT", 1)], [⟨"BTC/USDT", "sell", 10, 1, 10, 4⟩]⟩) := by
  refine ⟨?_, ?_, ?_, ?_, ?_⟩
  · exact (c8_trade_validation_atomicity ⟨100, [], []⟩ "BTCUSDT" 1 1 0).1.mpr
      (Or.inr (Or.inl (by decide)))
  · exact (c8_trade_validation_atomicity ⟨5, [], []⟩ "BTC/USDT" 10 1 0).2.2.1
      (by decide) (by decide) (by norm_num) (by norm_num) (by norm_num)
  · exact (c8_trade_validation_atomicity ⟨0, [("BTC/USDT", 1)], []⟩
      "BTC/USDT" 10 2 0).2.2.2.1
      (by decide) (by decide) (by norm_num) (by norm_num)
      (by norm_num [dictGetD, dictGet, List.find?])
  · rw [(c8_trade_validation_atomicity ⟨100, [], []⟩ "BTC/USDT" 10 1 3).2.2.2.2.1
      (by decide) (by decide) (by norm_num) (by norm_num) (by norm_num)]
    norm_num [dictSet, dictGetD, dictGet, List.find?]
  · rw [(c8_trade_validation_atomicity ⟨0, [("BTC/USDT", 2)], []⟩
      "BTC/USDT" 10 1 4).2.2.2.2.2 2
      (by decide) (by decide) (by norm_num) (by norm_num)
      (by norm_num [dictGet, List.find?]) (by norm_num)]
    norm_num [dictSet, dictGetD, dictGet, List.find?]

/-! ### Opportunity analyzer (`coin_analyzer.py`: `should_change_coin`) -/

/-- The analyzer state relevant to the switching decision: the
`switch_threshold` passed to the constructor (stored but, notably, never
read by `should_change_coin`) and the `opportunity_scores` dict as an
insertion-ordered association list.  The embedded decision is taken at a
moment when `calculate_opportunity_scores` is time-gated
(`current_time - last_update_time < update_interval`), so the call made
through `get_best_opportunities` returns the stored scores unchanged. -/
structure AnalyzerState where
  switchThreshold : ℤ
  opportunityScores : List (String × ℤ)
  deriving DecidableEq

/-- Embedding of `get_best_opportunities`: Python's stable
`sorted(..., key=score, reverse=True)` followed by `[:top_n]`.  Mathlib's
insertion sort with the relation putting the earlier element first on
ties reproduces CPython's stable descending sort. -/
def getBestOpportunities (a : AnalyzerState) (topN : ℕ) : List (String × ℤ) :=
  (List.insertionSort (fun x y : String × ℤ => y.2 ≤ x.2) a.opportunityScores).take topN

/-- Embedding of `should_change_coin`: no decision with fewer than two
scores; otherwise take the top-scoring coin and switch only when it is a
different coin whose score strictly exceeds the current one by more than
the literal 15 the source hard-codes (the configured `switch_threshold`
is not consulted).  An unknown current coin yields the best coin. -/
def shouldChangeCoin (a : AnalyzerState) (currentCoin : String) : Option String :=
  if a.opportunityScores.length < 2 then none
  else
    match getBestOpportunities a 1 with
    | [] => none
    | (bestCoin, bestScore) :: _ =>
      match a.opportunityScores.find? (fun p => p.1 == currentCoin) with
      | none => some bestCoin
      | some pc =>
        if bestCoin ≠ currentCoin ∧ bestScore > pc.2 + 15 then some bestCoin
        else none

/-- C3 (counterexample): the claim asserts that with a configured margin of
10 and scores `{A:70, B:85}` the analyzer decides a switch to B.  It does
not: `should_change_coin` ignores the configured margin and requires the
candidate to beat the current score by strictly more than 15, and
`85 > 70 + 15` is false, so the decision is `none`. -/
theorem c3_hysteresis_counterexample :
    shouldChangeCoin ⟨10, [("A", 70), ("B", 85)]⟩ "A" = none ∧
      shouldChangeCoin ⟨10, [("A", 70), ("B", 85)]⟩ "A" ≠ some "B" := by
  constructor
  · decide
  · decide

/-- C3 (amended): whatever margin is configured, `should_change_coin` keeps
the active coin both at scores `{A:70, B:78}` and at `{A:70, B:85}`, because
it hard-codes a strict 15-point threshold; the switch to B happens once B
exceeds A by more than 15, e.g. at `{A:70, B:86}`. -/
theorem c3_hysteresis_amended (t : ℤ) :
    shouldChangeCoin ⟨t, [("A", 70), ("B", 78)]⟩ "A" = none ∧
      shouldChangeCoin ⟨t, [("A", 70), ("B", 85)]⟩ "A" = none ∧
      shouldChangeCoin ⟨t, [("A", 70), ("B", 86)]⟩ "A" = some "B" := by
  refine ⟨?_, ?_, ?_⟩ <;> rfl

/-! ### Orchestrator (`multi_coin_bot.py`: `_switch_active_coin`) -/

/-- Assignment `d[k] = v` for a dict embedded as a function over its fixed
key set (`allocated_balances` and `executors` are created with one entry
per configured symbol and no keys are ever added or removed). -/
def setKey (f : String → ℚ) (k : String) (v : ℚ) : String → ℚ :=
  fun s => if s = k then v else f s

/-- Assignment for the executor map. -/
def setExec (f : String → SimState) (k : String) (v : SimState) :
    String → SimState :=
  fun s => if s = k then v else f s

/-- The `MultiCoinTradingBot` state touched by `_switch_active_coin`:
the configured symbol list, the unallocated pool `available_balance`, the
per-symbol `allocated_balances`, the optional `active_symbol` with its
`active_since` stamp, each symbol's executor simulator state, the
bot-level `positions` snapshot dict and the realized-P&L counter. -/
structure BotState where
  symbols : List String
  availableBalance : ℚ
  allocatedBalances : String → ℚ
  activeSymbol : Option String
  activeSince : ℤ
  executors : String → SimState
  positions : List (String × ℚ)
  totalProfitLoss : ℚ

/-- The liquidation loop of `_switch_active_coin`: iterate over a snapshot
(`list(...items())`) of the active executor's positions; for each strictly
positive volume look up the latest cached price, and if one is present and
non-zero (Python truthiness of `if price:`) sell the whole volume at it
through the simulator.  A `ValueError` from `execute_sell` (negative
cached price) propagates. -/
def liquidatePositions (prices : String → Option ℚ) (now : ℤ) :
    List (String × ℚ) → SimState → Except String SimState
  | [], sim => .ok sim
  | (psym, vol) :: rest, sim =>
    if 0 < vol then
      match prices psym with
      | some p =>
        if p ≠ 0 then
          match executeSell sim psym p vol now with
          | .error e => .error e
          | .ok r => liquidatePositions prices now rest r.2
        else liquidatePositions prices now rest sim
      | none => liquidatePositions prices now rest sim
    else liquidatePositions prices now rest sim

/-- Embedding of `MultiCoinTradingBot._switch_active_coin`.  A symbol not
in the configured list is rejected before any mutation.  Otherwise, if an
active symbol exists its positions are liquidated into its executor's
simulator balance, its allocation is returned to the pool and zeroed;
then the new symbol becomes active and receives 70% of the pool
(`Decimal('0.7')`), the remainder staying available.  `now` is
`int(time.time())`. -/
def switchActiveCoin (prices : String → Option ℚ) (st : BotState)
    (newSymbol : String) (now : ℤ) : Except String BotState :=
  if newSymbol ∉ st.symbols then .ok st
  else
    let afterOld : Except String BotState :=
      match st.activeSymbol with
      | none => .ok st
      | some old =>
        match liquidatePositions prices now ((st.executors old).positions)
            (st.executors old) with
        | .error e => .error e
        | .ok sim2 =>
          .ok { st with
            executors := setExec st.executors old sim2,
            availableBalance := st.availableBalance + st.allocatedBalances old,
            allocatedBalances := setKey st.allocatedBalances old 0 }
    match afterOld with
    | .error e => .error e
    | .ok st2 =>
      .ok { st2 with
        activeSymbol := some newSymbol,
        activeSince := now,
        allocatedBalances := setKey st2.allocatedBalances newSymbol
          (st2.availableBalance * (7 / 10)),
        availableBalance :=
          st2.availableBalance - st2.availableBalance * (7 / 10) }

/-- Sum of the allocated balances over the configured symbols
(`sum(self.allocated_balances.values())`). -/
def allocatedTotal (st : BotState) : ℚ :=
  (st.symbols.map st.allocatedBalances).sum

/-- The quantity named by the capital-conservation claim:
`available_balance + Σ allocated_balances + Σ (position volume × latest
cached price)`, the position sum ranging over every executor's open
positions, a missing cached price contributing zero. -/
def trackedCapital (prices : String → Option ℚ) (st : BotState) : ℚ :=
  st.availableBalance + allocatedTotal st +
    (st.symbols.map (fun s =>
      (((st.executors s).positions).map
        (fun pv => pv.2 * ((prices pv.1).getD 0))).sum)).sum

/-- C10: switching to a symbol outside the configured list is rejected
before any mutation — the returned state is the input state itself, so
active symbol, allocations, pool and positions are all untouched. -/
theorem c10_switch_unknown_symbol_rejected (prices : String → Option ℚ)
    (st : BotState) (newSymbol : String) (now : ℤ)
    (h : newSymbol ∉ st.symbols) :
    switchActiveCoin prices st newSymbol now = .ok st := by
  unfold switchActiveCoin
  rw [if_pos h]

/-- C10 witness: the rejection theorem evaluated at a concrete bot state
monitoring only BTC/USDT, asked to switch to DOGE/USDT. -/
theorem c10_switch_unknown_symbol_rejected_witness :
    switchActiveCoin (fun _ => none)
      ⟨["BTC/USDT"], 1000, fun _ => 0, none, 0, fun _ => ⟨1, [], []⟩, [], 0⟩
      "DOGE/USDT" 0 =
      .ok ⟨["BTC/USDT"], 1000, fun _ => 0, none, 0, fun _ => ⟨1, [], []⟩, [], 0⟩ :=
  c10_switch_unknown_symbol_rejected (fun _ => none)
    ⟨["BTC/USDT"], 1000, fun _ => 0, none, 0, fun _ => ⟨1, [], []⟩, [], 0⟩
    "DOGE/USDT" 0 (by decide)

/-- C2: from a state whose active symbol is BTC/USDT with no open
positions and whose pool-after-return totals 1000, switching to ETH/USDT
allocates exactly 700 to ETH/USDT (the hard-coded 70% fraction), leaves
exactly 300 available, zeroes BTC/USDT's allocation and makes ETH/USDT
the single active symbol. -/
theorem c2_switch_scenario (prices : String → Option ℚ) (st : BotState)
    (now : ℤ)
    (hact : st.activeSymbol = some "BTC/USDT")
    (hpos : (st.executors "BTC/USDT").positions = [])
    (hpool : st.availableBalance + st.allocatedBalances "BTC/USDT" = 1000)
    (hmem : "ETH/USDT" ∈ st.symbols) :
    ∃ st2 : BotState, switchActiveCoin prices st "ETH/USDT" now = .ok st2 ∧
      st2.allocatedBalances "ETH/USDT" = 700 ∧
      st2.availableBalance = 300 ∧
      st2.allocatedBalances "BTC/USDT" = 0 ∧
      st2.activeSymbol = some "ETH/USDT" := by
  unfold switchActiveCoin
  rw [if_neg (not_not_intro hmem), hact]
  dsimp only
  rw [hpos]
  rw [show liquidatePositions prices now [] (st.executors "BTC/USDT") =
    .ok (st.executors "BTC/USDT") from rfl]
  refine ⟨_, rfl, ?_, ?_, ?_, rfl⟩
  · show setKey (setKey st.allocatedBalances "BTC/USDT" 0) "ETH/USDT"
      ((st.availableBalance + st.allocatedBalances "BTC/USDT") * (7 / 10))
      "ETH/USDT" = 700
    unfold setKey
    rw [if_pos rfl, hpool]
    norm_num
  · show (st.availableBalance + st.allocatedBalances "BTC/USDT") -
      (st.availableBalance + st.allocatedBalances "BTC/USDT") * (7 / 10) = 300
    rw [hpool]
    norm_num
  · show setKey (setKey st.allocatedBalances "BTC/USDT" 0) "ETH/USDT"
      ((st.availableBalance + st.allocatedBalances "BTC/USDT") * (7 / 10))
      "BTC/USDT" = 0
    unfold setKey
    rw [if_neg (by decide), if_pos rfl]

/-- C2 witness: the switch scenario evaluated at a concrete bot state with
BTC/USDT active, allocation 1000, empty pool and no open positions. -/
theorem c2_switch_scenario_witness :
    ∃ st2 : BotState,
      switchActiveCoin (fun _ => none)
        ⟨["BTC/USDT", "ETH/USDT"], 0,
          (fun s => if s = "BTC/USDT" then 1000 else 0),
          some "BTC/USDT", 0, fun _ => ⟨1, [], []⟩, [], 0⟩
        "ETH/USDT" 0 = .ok st2 ∧
      st2.allocatedBalances "ETH/USDT" = 700 ∧
      st2.availableBalance = 300 ∧
      st2.allocatedBalances "BTC/USDT" = 0 ∧
      st2.activeSymbol = some "ETH/USDT" :=
  c2_switch_scenario (fun _ => none)
    ⟨["BTC/USDT", "ETH/USDT"], 0,
      (fun s => if s = "BTC/USDT" then 1000 else 0),
      some "BTC/USDT", 0, fun _ => ⟨1, [], []⟩, [], 0⟩
    0 rfl rfl (by norm_num) (by decide)

/-- A price cache holding 100 for BTC/USDT, used by the C1 analysis. -/
def c1Prices : String → Option ℚ :=
  fun s => if s = "BTC/USDT" then some 100 else none

/-- A reachable bot state: 1000 allocated to the active symbol BTC/USDT
whose executor holds 1 BTC bought at 100 (simulator balance 900), nothing
available, no realized P&L. -/
def c1State : BotState :=
  { symbols := ["BTC/USDT", "ETH/USDT"],
    availableBalance := 0,
    allocatedBalances := fun s => if s = "BTC/USDT" then 1000 else 0,
    activeSymbol := some "BTC/USDT",
    activeSince := 0,
    executors := fun s =>
      if s = "BTC/USDT" then ⟨900, [("BTC/USDT", 1)], []⟩ else ⟨1, [], []⟩,
    positions := [("BTC/USDT", 1)],
    totalProfitLoss := 0 }

/-- C1 (counterexample): the claim asserts that
`available + Σ allocated + Σ(position·cached price)` changes only by
realized trade P&L, and in particular is unchanged by a switch alone.
From `c1State` that quantity is 1100; after `_switch_active_coin` to
ETH/USDT it is 1000, while `total_profit_loss` is untouched: the
liquidation proceeds are credited to the executor's internal simulator
balance, which the quantity does not include. -/
theorem c1_capital_conservation_counterexample :
    trackedCapital c1Prices c1State = 1100 ∧
      (switchActiveCoin c1Prices c1State "ETH/USDT" 0).map
        (trackedCapital c1Prices) = .ok 1000 ∧
      (switchActiveCoin c1Prices c1State "ETH/USDT" 0).map
        BotState.totalProfitLoss = .ok 0 := by
  have h1 : ("ETH/USDT" : String) = "BTC/USDT" ↔ False := iff_false_intro (by decide)
  have h2 : ("BTC/USDT" : String) = "ETH/USDT" ↔ False := iff_false_intro (by decide)
  have h3 : ("BTC/USDT" : String) = "" ↔ False := iff_false_intro (by decide)
  refine ⟨?_, ?_, ?_⟩
  · norm_num [c1State, c1Prices, trackedCapital, allocatedTotal, h1]
  · norm_num [c1State, c1Prices, trackedCapital, allocatedTotal,
      switchActiveCoin, liquidatePositions, executeSell, setKey, setExec,
      dictGet, dictRemove, List.find?, Except.map, h1, h2, h3]
  · norm_num [c1State, c1Prices, switchActiveCoin, liquidatePositions,
      executeSell, setKey, setExec, dictGet, dictRemove, List.find?,
      Except.map, h1, h2, h3]

theorem sum_map_setKey (l : List String) (f : String → ℚ) (k : String) (v : ℚ)
    (hnd : l.Nodup) (hk : k ∈ l) :
    (l.map (setKey f k v)).sum = (l.map f).sum + v - f k := by
  induction l with
  | nil => cases hk
  | cons a rest ih =>
    obtain ⟨hout, hndr⟩ := List.nodup_cons.mp hnd
    by_cases he : a = k
    · subst he
      have hrest : rest.map (setKey f a v) = rest.map f := by
        apply List.map_congr_left
        intro x hx
        have hxa : x ≠ a := fun h2 => hout (h2 ▸ hx)
        simp [setKey, hxa]
      simp only [List.map_cons, List.sum_cons, hrest, setKey, if_pos rfl, if_true]
      ring
    · have hkr : k ∈ rest := by
        rcases List.mem_cons.mp hk with h2 | h2
        · exact absurd h2.symm he
        · exact h2
      simp only [List.map_cons, List.sum_cons, setKey, if_neg he, ih hndr hkr]
      ring

/-- C1 (amended): for every reachable orchestrator state — configured
symbols distinct, any active symbol among them and only it carrying a
non-zero allocation — a switch, including its liquidation step, leaves
`available_balance + Σ allocated_balances` unchanged and does not change
`total_profit_loss`.  The claim's own quantity, which additionally adds
`Σ(position·cached price)`, is not conserved when a position is
liquidated, because the sale proceeds accrue to the executor's internal
simulator balance, outside the quantity, while the allocated balances
already carry the position's marked value. -/
theorem c1_capital_conservation_amended (prices : String → Option ℚ)
    (st : BotState) (newSymbol : String) (now : ℤ)
    (hnd : st.symbols.Nodup)
    (hact : ∀ old, st.activeSymbol = some old → old ∈ st.symbols)
    (hidle : ∀ s, st.activeSymbol ≠ some s → st.allocatedBalances s = 0) :
    (switchActiveCoin prices st newSymbol now).map
        (fun st2 => (st2.availableBalance + allocatedTotal st2,
          st2.totalProfitLoss)) =
      (switchActiveCoin prices st newSymbol now).map
        (fun _ => (st.availableBalance + allocatedTotal st,
          st.totalProfitLoss)) := by
  by_cases hmem : newSymbol ∈ st.symbols
  case neg =>
    unfold switchActiveCoin
    rw [if_pos hmem]
    rfl
  unfold switchActiveCoin
  rw [if_neg (not_not_intro hmem)]
  cases hA : st.activeSymbol with
  | none =>
    dsimp only [Except.map]
    refine congrArg Except.ok ?_
    apply Prod.ext
    · show (st.availableBalance - st.availableBalance * (7 / 10)) +
        allocatedTotal { st with
          activeSymbol := some newSymbol, activeSince := now,
          allocatedBalances :=
            setKey st.allocatedBalances newSymbol
              (st.availableBalance * (7 / 10)),
          availableBalance :=
            st.availableBalance - st.availableBalance * (7 / 10) } =
        st.availableBalance + allocatedTotal st
      unfold allocatedTotal
      dsimp only
      rw [sum_map_setKey st.symbols st.allocatedBalances newSymbol _ hnd hmem]
      have hz : st.allocatedBalances newSymbol = 0 :=
        hidle newSymbol (by rw [hA]; exact fun h => Option.noConfusion h)
      rw [hz]
      ring
    · rfl
  | some old =>
    have hold : old ∈ st.symbols := hact old hA
    dsimp only
    cases hliq : liquidatePositions prices now ((st.executors old).positions)
        (st.executors old) with
    | error e => rfl
    | ok sim2 =>
      dsimp only [Except.map]
      refine congrArg Except.ok ?_
      apply Prod.ext
      · show ((st.availableBalance + st.allocatedBalances old) -
            (st.availableBalance + st.allocatedBalances old) * (7 / 10)) +
          allocatedTotal { st with
            executors := setExec st.executors old sim2,
            activeSymbol := some newSymbol, activeSince := now,
            allocatedBalances :=
              setKey (setKey st.allocatedBalances old 0) newSymbol
                ((st.availableBalance + st.allocatedBalances old) * (7 / 10)),
            availableBalance :=
              (st.availableBalance + st.allocatedBalances old) -
                (st.availableBalance + st.allocatedBalances old) * (7 / 10) } =
          st.availableBalance + allocatedTotal st
        unfold allocatedTotal
        dsimp only
        rw [sum_map_setKey st.symbols _ newSymbol _ hnd hmem,
          sum_map_setKey st.symbols st.allocatedBalances old 0 hnd hold]
        have hz : setKey st.allocatedBalances old 0 newSymbol = 0 := by
          by_cases he : newSymbol = old
          · simp [setKey, he]
          · have hz0 : st.allocatedBalances newSymbol = 0 := by
              apply hidle newSymbol
              rw [hA]
              intro hcon
              exact he (Option.some.inj hcon).symm
            simp [setKey, he, hz0]
        rw [hz]
        ring
      · rfl

/-- C1 witness: the amended conservation theorem evaluated at `c1State`,
which satisfies the reachability hypotheses. -/
theorem c1_capital_conservation_amended_witness :
    (switchActiveCoin c1Prices c1State "ETH/USDT" 0).map
        (fun st2 => (st2.availableBalance + allocatedTotal st2,
          st2.totalProfitLoss)) =
      (switchActiveCoin c1Prices c1State "ETH/USDT" 0).map
        (fun _ => (c1State.availableBalance + allocatedTotal c1State,
          c1State.totalProfitLoss)) :=
  c1_capital_conservation_amended c1Prices c1State "ETH/USDT" 0 (by decide)
    (by
      intro old h
      simp only [c1State, Option.some.injEq] at h
      subst h
      decide)
    (by
      intro s h
      by_cases hs : s = "BTC/USDT"
      · exact absurd (show c1State.activeSymbol = some s by rw [hs]; rfl) h
      · simp [c1State, hs])
